import Mathlib

/-!
Verification of the quiz app core in `src/App.tsx` (hevanx/QuizApp1):
the selection tracker (`handleSelect`), the commit/navigation step
(`handleNext`, the `Next` button guard) and the scorer (`getCorrect`,
the `score` reduce), together with the built-in `quizData`.

Conventions of the embedding:
* choice indices are `Nat`; a JS array of indices is a `List Nat`;
* a value that may be JS `undefined` is an `Option`;
* a computation that may throw a `TypeError` returns `Option` (`none` =
  the exception propagates).
-/

/-- The `QuestionType` union (src/App.tsx line 16). -/
inductive QuestionType where
  | multipleChoice
  | multipleAnswer
  | trueFalse
deriving DecidableEq, Repr

/-- The `correct: number | number[]` union in `QuestionData`
(src/App.tsx line 22), as a tagged variant. -/
inductive CorrectField where
  | single : Nat → CorrectField
  | multi : List Nat → CorrectField
deriving DecidableEq, Repr

/-- The `QuestionData` interface (src/App.tsx lines 18-23). -/
structure QuestionData where
  prompt : String
  qtype : QuestionType
  choices : List String
  correct : CorrectField
deriving DecidableEq, Repr

/-- The built-in question list `quizData` (src/App.tsx lines 39-58). -/
def quizData : List QuestionData :=
  [ { prompt := "Which of the following is a fruit?",
      qtype := QuestionType.multipleChoice,
      choices := ["Carrot", "Apple", "Potato", "Celery"],
      correct := CorrectField.single 1 },
    { prompt := "Select all even numbers:",
      qtype := QuestionType.multipleAnswer,
      choices := ["1", "2", "3", "4"],
      correct := CorrectField.multi [1, 3] },
    { prompt := "The sky is blue.",
      qtype := QuestionType.trueFalse,
      choices := ["False", "True"],
      correct := CorrectField.single 1 } ]

/-- `question.type === 'multiple-answer'` (src/App.tsx line 68). -/
def isMultipleAnswer (q : QuestionData) : Bool :=
  q.qtype = QuestionType.multipleAnswer

/-- `handleSelect` (src/App.tsx lines 70-78): the toggle action on the
per-question selection state `selected`.  For a multiple-answer question it
removes `value` when present (`prev.filter((v) => v !== value)`) and appends
it otherwise (`[...prev, value]`); for the other types the selection becomes
`[value]`. -/
def handleSelect (q : QuestionData) (prev : List Nat) (value : Nat) : List Nat :=
  if isMultipleAnswer q then
    if prev.contains value then prev.filter (fun v => v != value)
    else prev ++ [value]
  else [value]

/-- `getCorrect` (src/App.tsx lines 138-147).  `selected` is `none` when
`userAnswers[i]` is `undefined` in JS.  On the array branch,
`Array.isArray(selected)` is then `false` and the question is graded
incorrect; on the single-index branch, `selected.includes(correct)` throws a
TypeError, modelled as `none`. -/
def getCorrect : CorrectField → Option (List Nat) → Option Bool
  | CorrectField.multi c, selected =>
      some (match selected with
        | none => false
        | some s => c.length == s.length && c.all fun v => s.contains v)
  | CorrectField.single _, none => none
  | CorrectField.single c, some s => some (s.contains c)

/-- The `score` reduce (src/App.tsx lines 149-151), written as the left fold
it is: `acc` is the accumulator, `i` the index supplied by `reduce`, and a
TypeError thrown by `getCorrect` aborts the whole computation (`none`). -/
def scoreAux (userAnswers : List (List Nat)) :
    Nat → Nat → List QuestionData → Option Nat
  | acc, _, [] => some acc
  | acc, i, q :: qs =>
      match getCorrect q.correct userAnswers[i]? with
      | none => none
      | some b => scoreAux userAnswers (acc + if b then 1 else 0) (i + 1) qs

/-- `score` (src/App.tsx lines 149-151): the reduce started with
accumulator `0` at index `0`. -/
def score (data : List QuestionData) (userAnswers : List (List Nat)) :
    Option Nat :=
  scoreAux userAnswers 0 0 data

/-- Per-question correctness flags: `getCorrect` applied at every position
exactly as the `score` reduce reads them (`getCorrect(q.correct,
userAnswers[i])`), collected in order; `none` as soon as one position
throws. -/
def perQuestion (userAnswers : List (List Nat)) :
    Nat → List QuestionData → Option (List Bool)
  | _, [] => some []
  | i, q :: qs =>
      match getCorrect q.correct userAnswers[i]?, perQuestion userAnswers (i + 1) qs with
      | some b, some rest => some (b :: rest)
      | _, _ => none

/-- The JS array write `updatedAnswers[index] = selected` (src/App.tsx
line 82) for `index ≤ updatedAnswers.length`: overwrite in place, or append
when `index` equals the length.  (An index past the length would create a
sparse array; the session starts with `userAnswers = []` at index 0 and
every commit writes at `index = length`, so that case is unreachable.) -/
def writeAnswer (l : List (List Nat)) (i : Nat) (v : List Nat) :
    List (List Nat) :=
  if i < l.length then l.set i v else l ++ [v]

/-- The guard of the `Next` button: `disabled={selected.length === 0}`
(src/App.tsx line 126). -/
def nextDisabled (selected : List Nat) : Bool :=
  selected.length == 0

/-- The session state: a `Question` screen (src/App.tsx lines 63-65) holds
the current `index`, the `userAnswers` received through navigation params and
its own `selected` state; the `Summary` screen (lines 135-136) holds the
final `userAnswers`. -/
inductive SessionState where
  | awaiting (index : Nat) (userAnswers : List (List Nat)) (selected : List Nat)
  | graded (userAnswers : List (List Nat))
deriving DecidableEq, Repr

/-- The commit step: pressing `Next` runs `handleNext` (src/App.tsx lines
80-96), which copies `userAnswers`, writes `selected` at `index`, and either
pushes the next `Question` screen (whose `useState` starts the fresh
selection at `[]`, line 65) when `index + 1 < data.length`, or replaces with
the `Summary` screen.  The press is impossible when the button is disabled
(`nextDisabled`) and the `Summary` screen has no navigation action at all,
hence `none` in those cases. -/
def commit (total : Nat) : SessionState → Option SessionState
  | SessionState.awaiting index ua sel =>
      if nextDisabled sel then none
      else
        some (if index + 1 < total then
            SessionState.awaiting (index + 1) (writeAnswer ua index sel) []
          else
            SessionState.graded (writeAnswer ua index sel))
  | SessionState.graded _ => none

example : score quizData [[1], [1, 3], [1]] = some 3 := by rfl
example : score quizData [[0], [1], [0]] = some 0 := by rfl
example : score quizData [[1], [1, 3]] = none := by rfl
example : perQuestion [[1], [1, 3], [1]] 0 quizData = some [true, true, true] := by rfl
example : handleSelect (quizData.get ⟨1, by decide⟩) [1, 3] 3 = [1] := by rfl

/-! ## Helper lemmas -/

lemma contains_eq_decide_mem (l : List Nat) (a : Nat) :
    l.contains a = decide (a ∈ l) := by
  simp [List.contains]

lemma getCorrect_some_isSome (c : CorrectField) (s : List Nat) :
    (getCorrect c (some s)).isSome = true := by
  cases c <;> simp [getCorrect]

lemma scoreAux_eq_perQuestion (ua : List (List Nat)) :
    ∀ (qs : List QuestionData) (i acc : Nat),
      scoreAux ua acc i qs
        = (perQuestion ua i qs).map (fun bs => acc + bs.count true) := by
  intro qs
  induction qs with
  | nil => intro i acc; simp [scoreAux, perQuestion]
  | cons q qs ih =>
      intro i acc
      cases h : getCorrect q.correct ua[i]? with
      | none => simp [scoreAux, perQuestion, h]
      | some b =>
          simp only [scoreAux, perQuestion, h]
          rw [ih (i + 1) (acc + if b then 1 else 0)]
          cases hp : perQuestion ua (i + 1) qs with
          | none => simp
          | some rest =>
              simp only [Option.map_some]
              cases b
              · simp [List.count_cons]
              · simp [List.count_cons]
                omega

lemma perQuestion_length (ua : List (List Nat)) :
    ∀ (qs : List QuestionData) (i : Nat) (bs : List Bool),
      perQuestion ua i qs = some bs → bs.length = qs.length := by
  intro qs
  induction qs with
  | nil =>
      intro i bs h
      simp [perQuestion] at h
      simp [← h]
  | cons q qs ih =>
      intro i bs h
      cases hg : getCorrect q.correct ua[i]? with
      | none => simp [perQuestion, hg] at h
      | some b =>
          cases hp : perQuestion ua (i + 1) qs with
          | none => simp [perQuestion, hg, hp] at h
          | some rest =>
              rw [perQuestion, hg, hp] at h
              cases h
              simp [ih (i + 1) rest hp]

lemma perQuestion_isSome (ua : List (List Nat)) :
    ∀ (qs : List QuestionData) (i : Nat), i + qs.length ≤ ua.length →
      (perQuestion ua i qs).isSome = true := by
  intro qs
  induction qs with
  | nil => intro i h; simp [perQuestion]
  | cons q qs ih =>
      intro i h
      simp only [List.length_cons] at h
      have hi : i < ua.length := by omega
      have hrest := ih (i + 1) (by omega)
      obtain ⟨rest, hr⟩ := Option.isSome_iff_exists.1 hrest
      have hb := getCorrect_some_isSome q.correct ua[i]
      obtain ⟨b, hbe⟩ := Option.isSome_iff_exists.1 hb
      rw [perQuestion, List.getElem?_eq_getElem hi, hbe, hr]
      rfl

/-! ## Claims -/

/-- C1, counterexample: grading does NOT always produce a result.  On the
well-formed built-in question list, an answer set missing the entry for the
third question (whose `correct` is the single index 1) makes the `score`
reduce throw a TypeError (`selected.includes(correct)` with
`selected = undefined`), modelled as `none`: the missing entry is not
treated as an empty selection on the single-index branch. -/
theorem score_quizData_missing_entry_fails :
    score quizData [[1], [1, 3]] = none := by rfl

/-- C1, amended: a missing/undefined answer entry is treated as an empty
selection (question graded incorrect) only when `correct` is set-valued; when
`correct` is a single index a missing entry makes grading throw, so no result
is produced.  When the answer set has an entry at every position, grading
always produces a result. -/
theorem grading_missing_entry :
    (∀ l : List Nat, getCorrect (CorrectField.multi l) none = some false)
    ∧ (∀ n : Nat, getCorrect (CorrectField.single n) none = none)
    ∧ (∀ (data : List QuestionData) (ua : List (List Nat)),
        data.length ≤ ua.length → (score data ua).isSome = true) := by
  refine ⟨fun l => rfl, fun n => rfl, fun data ua h => ?_⟩
  rw [score, scoreAux_eq_perQuestion]
  have := perQuestion_isSome ua data 0 (by omega)
  obtain ⟨bs, hbs⟩ := Option.isSome_iff_exists.1 this
  simp [hbs]

/-- C1, witness for the amended claim's hypothesis. -/
theorem grading_missing_entry_witness :
    quizData.length ≤ ([[1], [1, 3], [1]] : List (List Nat)).length
    ∧ (score quizData [[1], [1, 3], [1]]).isSome = true :=
  ⟨by decide,
   grading_missing_entry.2.2 quizData [[1], [1, 3], [1]] (by decide)⟩

/-- C2: a set-valued `correct` is graded correct iff the selection has
exactly the same members (for duplicate-free lists, as both are in the app:
`correct` by the data invariant, the selection by construction of
`handleSelect`); concretely, `correct = [1,3]` against `[1,3]` is correct and
against `[1,3,2]` or `[1]` is incorrect. -/
theorem getCorrect_multi_exact_match :
    (∀ l s : List Nat, l.Nodup → s.Nodup →
      (getCorrect (CorrectField.multi l) (some s) = some true
        ↔ ∀ v, v ∈ s ↔ v ∈ l))
    ∧ getCorrect (CorrectField.multi [1, 3]) (some [1, 3]) = some true
    ∧ getCorrect (CorrectField.multi [1, 3]) (some [1, 3, 2]) = some false
    ∧ getCorrect (CorrectField.multi [1, 3]) (some [1]) = some false := by
  refine ⟨fun l s hl hs => ?_, by rfl, by rfl, by rfl⟩
  have hred : getCorrect (CorrectField.multi l) (some s) = some true
      ↔ l.length = s.length ∧ ∀ v ∈ l, v ∈ s := by
    simp [getCorrect, List.all_eq_true, contains_eq_decide_mem]
  rw [hred]
  constructor
  · rintro ⟨hlen, hsub⟩ v
    have h1 : l.toFinset ⊆ s.toFinset := fun x hx =>
      List.mem_toFinset.2 (hsub x (List.mem_toFinset.1 hx))
    have h2 : s.toFinset.card ≤ l.toFinset.card := by
      rw [List.toFinset_card_of_nodup hl, List.toFinset_card_of_nodup hs, hlen]
    have h3 : l.toFinset = s.toFinset := Finset.eq_of_subset_of_card_le h1 h2
    constructor
    · intro hv
      exact List.mem_toFinset.1 (h3 ▸ List.mem_toFinset.2 hv)
    · exact hsub v
  · intro h
    have h3 : l.toFinset = s.toFinset := by
      ext x
      simp only [List.mem_toFinset]
      exact (h x).symm
    refine ⟨?_, fun v hv => (h v).2 hv⟩
    rw [← List.toFinset_card_of_nodup hl, ← List.toFinset_card_of_nodup hs, h3]

/-- C2, witness: the exact-match criterion applied at `correct = [1,3]` and
the (reordered, duplicate-free) selection `[3,1]`. -/
theorem getCorrect_multi_exact_match_witness :
    ([1, 3] : List Nat).Nodup ∧ ([3, 1] : List Nat).Nodup
    ∧ (getCorrect (CorrectField.multi [1, 3]) (some [3, 1]) = some true
        ↔ ∀ v, v ∈ ([3, 1] : List Nat) ↔ v ∈ ([1, 3] : List Nat)) :=
  ⟨by decide, by decide,
   getCorrect_multi_exact_match.1 [1, 3] [3, 1] (by decide) (by decide)⟩

/-- C3: a single-index `correct` is graded correct iff that index is a member
of the selection (membership, not equality with the whole set); concretely,
`correct = 1` against `[1]` and `[0,1]` is correct, against `[0]` incorrect. -/
theorem getCorrect_single_membership :
    (∀ (n : Nat) (s : List Nat),
      getCorrect (CorrectField.single n) (some s) = some true ↔ n ∈ s)
    ∧ getCorrect (CorrectField.single 1) (some [1]) = some true
    ∧ getCorrect (CorrectField.single 1) (some [0, 1]) = some true
    ∧ getCorrect (CorrectField.single 1) (some [0]) = some false := by
  refine ⟨fun n s => ?_, by rfl, by rfl, by rfl⟩
  simp [getCorrect, contains_eq_decide_mem]

/-- C4: the score is the count of questions graded correct and the
per-question list has one entry per question (the displayed total is
`data.length` itself); concretely, on the built-in questions the answer set
`[[1],[1,3],[1]]` scores 3 of 3 with every question correct and
`[[0],[1],[0]]` scores 0 of 3 with every question incorrect. -/
theorem score_counts_correct_questions :
    (∀ (data : List QuestionData) (ua : List (List Nat)) (bs : List Bool),
        perQuestion ua 0 data = some bs →
        score data ua = some (bs.count true) ∧ bs.length = data.length)
    ∧ score quizData [[1], [1, 3], [1]] = some 3
    ∧ perQuestion [[1], [1, 3], [1]] 0 quizData = some [true, true, true]
    ∧ score quizData [[0], [1], [0]] = some 0
    ∧ perQuestion [[0], [1], [0]] 0 quizData = some [false, false, false] := by
  refine ⟨fun data ua bs h => ?_, by rfl, by rfl, by rfl, by rfl⟩
  refine ⟨?_, perQuestion_length ua data 0 bs h⟩
  rw [score, scoreAux_eq_perQuestion, h]
  simp

/-- C4, witness: the count/length property applied at the built-in questions
and the all-correct answer set. -/
theorem score_counts_correct_questions_witness :
    perQuestion [[1], [1, 3], [1]] 0 quizData = some [true, true, true]
    ∧ (score quizData [[1], [1, 3], [1]]
          = some (([true, true, true] : List Bool).count true)
       ∧ ([true, true, true] : List Bool).length = quizData.length) :=
  ⟨by rfl,
   score_counts_correct_questions.1 quizData [[1], [1, 3], [1]]
     [true, true, true] (by rfl)⟩

lemma nextDisabled_eq_false {sel : List Nat} (h : sel ≠ []) :
    nextDisabled sel = false := by
  cases sel with
  | nil => exact absurd rfl h
  | cons a as => rfl

/-- C5: from `AwaitingSelection(index)` a commit goes to
`AwaitingSelection(index + 1)` with a fresh empty selection while
`index + 1 < total`; a commit at the last position goes to the terminal
`Graded` state handing over an answer set of length `total`; nothing leaves
`Graded` (so it is reached exactly once, there being no back transition); and
the three built-in questions are committed through concretely. -/
theorem commit_session_machine :
    (∀ (total index : Nat) (ua : List (List Nat)) (sel : List Nat),
        sel ≠ [] → index + 1 < total →
        commit total (SessionState.awaiting index ua sel)
          = some (SessionState.awaiting (index + 1) (writeAnswer ua index sel) []))
    ∧ (∀ (total index : Nat) (ua : List (List Nat)) (sel : List Nat),
        sel ≠ [] → index + 1 = total → ua.length = index →
        commit total (SessionState.awaiting index ua sel)
          = some (SessionState.graded (writeAnswer ua index sel))
        ∧ (writeAnswer ua index sel).length = total)
    ∧ (∀ (total : Nat) (ua : List (List Nat)),
        commit total (SessionState.graded ua) = none)
    ∧ commit 3 (SessionState.awaiting 0 [] [1])
        = some (SessionState.awaiting 1 [[1]] [])
    ∧ commit 3 (SessionState.awaiting 1 [[1]] [1, 3])
        = some (SessionState.awaiting 2 [[1], [1, 3]] [])
    ∧ commit 3 (SessionState.awaiting 2 [[1], [1, 3]] [1])
        = some (SessionState.graded [[1], [1, 3], [1]]) := by
  refine ⟨?_, ?_, fun total ua => rfl, by rfl, by rfl, by rfl⟩
  · intro total index ua sel h1 h2
    simp [commit, nextDisabled_eq_false h1, h2]
  · intro total index ua sel h1 h2 h3
    have hw : (writeAnswer ua index sel).length = total := by
      rw [writeAnswer, if_neg (by omega)]
      simp [List.length_append, h3]
      omega
    have hlt : ¬ (index + 1 < total) := by omega
    exact ⟨by simp [commit, nextDisabled_eq_false h1, hlt], hw⟩

/-- C5, witness: the first transition of the built-in session. -/
theorem commit_session_machine_witness :
    (([1] : List Nat) ≠ []) ∧ 0 + 1 < 3
    ∧ commit 3 (SessionState.awaiting 0 [] [1])
        = some (SessionState.awaiting (0 + 1) (writeAnswer [] 0 [1]) []) :=
  ⟨by decide, by decide,
   commit_session_machine.1 3 0 [] [1] (by decide) (by decide)⟩

/-- C6: the proceed action is disabled exactly when the selection is empty,
and a commit from a question screen is rejected exactly when the selection is
empty, for every question position (hence every question type). -/
theorem commit_rejected_iff_empty_selection :
    (∀ sel : List Nat, nextDisabled sel = true ↔ sel = [])
    ∧ (∀ (total index : Nat) (ua : List (List Nat)) (sel : List Nat),
        commit total (SessionState.awaiting index ua sel) = none ↔ sel = []) := by
  have h1 : ∀ sel : List Nat, nextDisabled sel = true ↔ sel = [] := by
    intro sel
    cases sel with
    | nil => simp [nextDisabled]
    | cons a as => simp [nextDisabled]
  refine ⟨h1, fun total index ua sel => ?_⟩
  by_cases h : sel = []
  · subst h
    simp [commit, nextDisabled]
  · simp [commit, nextDisabled_eq_false h, h]

/-- C7: commit writes the current selection at exactly the current position
of the answer set — overwriting any prior value there, leaving the entry at
every other position unchanged — and the committing screen continues with its
own updated copy `writeAnswer ua index sel` (the value `ua` held by the
previous screen is a pure value the update never mutates). -/
theorem commit_writes_current_position :
    ∀ (index : Nat) (ua : List (List Nat)) (sel : List Nat),
      index ≤ ua.length →
      (writeAnswer ua index sel)[index]? = some sel
      ∧ (∀ j : Nat, j ≠ index → (writeAnswer ua index sel)[j]? = ua[j]?)
      ∧ (∀ total : Nat, sel ≠ [] →
          commit total (SessionState.awaiting index ua sel)
            = some (if index + 1 < total then
                SessionState.awaiting (index + 1) (writeAnswer ua index sel) []
              else SessionState.graded (writeAnswer ua index sel))) := by
  intro index ua sel h
  by_cases hi : index < ua.length
  · refine ⟨?_, ?_, ?_⟩
    · rw [writeAnswer, if_pos hi]
      exact List.getElem?_set_self hi
    · intro j hj
      rw [writeAnswer, if_pos hi]
      exact List.getElem?_set_ne (Ne.symm hj)
    · intro total h1
      simp [commit, nextDisabled_eq_false h1]
  · have he : index = ua.length := by omega
    subst he
    refine ⟨?_, ?_, ?_⟩
    · rw [writeAnswer, if_neg (by omega)]
      exact List.getElem?_concat_length ua sel
    · intro j hj
      rw [writeAnswer, if_neg (by omega)]
      by_cases hjl : j < ua.length
      · exact List.getElem?_append_left hjl
      · rw [List.getElem?_eq_none
              (show (ua ++ [sel]).length ≤ j by simp [List.length_append]; omega),
            List.getElem?_eq_none (show ua.length ≤ j by omega)]
    · intro total h1
      simp [commit, nextDisabled_eq_false h1]

/-- C7, witness: overwriting position 0 of a one-entry answer set. -/
theorem commit_writes_current_position_witness :
    (0 : Nat) ≤ ([[5]] : List (List Nat)).length
    ∧ (writeAnswer [[5]] 0 [1])[0]? = some [1] :=
  ⟨by decide, (commit_writes_current_position 0 [[5]] [1] (by decide)).1⟩

/-- C8: on a single-select (multiple-choice) or boolean (true-false)
question, a toggle makes the selection exactly `[choiceIndex]`, discarding
any prior selection; hence toggling `a` then `b` with `a ≠ b` leaves exactly
`[b]`. -/
theorem handleSelect_single_replaces :
    (∀ (q : QuestionData) (prev : List Nat) (v : Nat),
        (q.qtype = QuestionType.multipleChoice
          ∨ q.qtype = QuestionType.trueFalse) →
        v < q.choices.length →
        handleSelect q prev v = [v])
    ∧ (∀ (q : QuestionData) (prev : List Nat) (a b : Nat),
        (q.qtype = QuestionType.multipleChoice
          ∨ q.qtype = QuestionType.trueFalse) →
        a < q.choices.length → b < q.choices.length → a ≠ b →
        handleSelect q (handleSelect q prev a) b = [b]) := by
  have h1 : ∀ (q : QuestionData) (prev : List Nat) (v : Nat),
      (q.qtype = QuestionType.multipleChoice
        ∨ q.qtype = QuestionType.trueFalse) →
      v < q.choices.length →
      handleSelect q prev v = [v] := by
    intro q prev v hq _
    have hma : isMultipleAnswer q = false := by
      rcases hq with h | h <;> simp [isMultipleAnswer, h]
    simp [handleSelect, hma]
  exact ⟨h1, fun q prev a b hq ha hb _ => by
    rw [h1 q prev a hq ha, h1 q [a] b hq hb]⟩

/-- C8, witness: the built-in multiple-choice question, toggling 1 then 2. -/
theorem handleSelect_single_replaces_witness :
    ((quizData.get ⟨0, by decide⟩).qtype = QuestionType.multipleChoice
      ∨ (quizData.get ⟨0, by decide⟩).qtype = QuestionType.trueFalse)
    ∧ (1 : Nat) < (quizData.get ⟨0, by decide⟩).choices.length
    ∧ (2 : Nat) < (quizData.get ⟨0, by decide⟩).choices.length
    ∧ (1 : Nat) ≠ 2
    ∧ handleSelect (quizData.get ⟨0, by decide⟩)
        (handleSelect (quizData.get ⟨0, by decide⟩) [] 1) 2 = [2] :=
  ⟨Or.inl rfl, by decide, by decide, by decide,
   handleSelect_single_replaces.2 (quizData.get ⟨0, by decide⟩) [] 1 2
     (Or.inl rfl) (by decide) (by decide) (by decide)⟩

/-- C9: on a multiple-answer question, a toggle removes the index when it is
already selected and appends it otherwise, and the membership of every other
index is unchanged. -/
theorem handleSelect_multi_toggle :
    ∀ (q : QuestionData) (prev : List Nat) (v : Nat),
      q.qtype = QuestionType.multipleAnswer → v < q.choices.length →
      ((v ∈ prev → handleSelect q prev v = prev.filter (fun w => w != v))
       ∧ (v ∉ prev → handleSelect q prev v = prev ++ [v])
       ∧ (∀ w, w ≠ v → (w ∈ handleSelect q prev v ↔ w ∈ prev))) := by
  intro q prev v hq _
  have hma : isMultipleAnswer q = true := by simp [isMultipleAnswer, hq]
  refine ⟨?_, ?_, ?_⟩
  · intro hv
    simp [handleSelect, hma, contains_eq_decide_mem, hv]
  · intro hv
    simp [handleSelect, hma, contains_eq_decide_mem, hv]
  · intro w hw
    by_cases hv : v ∈ prev
    · simp [handleSelect, hma, contains_eq_decide_mem, hv, List.mem_filter, hw]
    · simp [handleSelect, hma, contains_eq_decide_mem, hv, hw]

/-- C9, witness: the built-in multiple-answer question, toggling 3 out of
`[1, 3]`. -/
theorem handleSelect_multi_toggle_witness :
    handleSelect (quizData.get ⟨1, by decide⟩) [1, 3] 3
      = ([1, 3] : List Nat).filter (fun w => w != 3) :=
  (handleSelect_multi_toggle (quizData.get ⟨1, by decide⟩) [1, 3] 3
    rfl (by decide)).1 (by decide)

/-- C10: on a multiple-answer question, toggling the same index twice in a
row restores the selection as a set (same members as before). -/
theorem handleSelect_multi_involution :
    ∀ (q : QuestionData) (prev : List Nat) (x : Nat),
      q.qtype = QuestionType.multipleAnswer → x < q.choices.length →
      ∀ w, (w ∈ handleSelect q (handleSelect q prev x) x ↔ w ∈ prev) := by
  intro q prev x hq _ w
  have hma : isMultipleAnswer q = true := by simp [isMultipleAnswer, hq]
  by_cases hx : x ∈ prev
  · have h1 : handleSelect q prev x = prev.filter (fun v => v != x) := by
      simp [handleSelect, hma, contains_eq_decide_mem, hx]
    have hx2 : x ∉ prev.filter (fun v => v != x) := by
      simp [List.mem_filter]
    have h2 : handleSelect q (prev.filter (fun v => v != x)) x
        = prev.filter (fun v => v != x) ++ [x] := by
      simp [handleSelect, hma, contains_eq_decide_mem, hx2]
    rw [h1, h2]
    by_cases hw : w = x
    · subst hw
      simp [List.mem_append, hx]
    · simp [List.mem_append, List.mem_filter, hw]
  · have h1 : handleSelect q prev x = prev ++ [x] := by
      simp [handleSelect, hma, contains_eq_decide_mem, hx]
    have hx2 : x ∈ prev ++ [x] := by simp
    have h2 : handleSelect q (prev ++ [x]) x
        = (prev ++ [x]).filter (fun v => v != x) := by
      simp [handleSelect, hma, contains_eq_decide_mem, hx2]
    rw [h1, h2]
    by_cases hw : w = x
    · subst hw
      simp [List.mem_filter, hx]
    · simp [List.mem_filter, List.mem_append, hw]

/-- C10, witness: double-toggling 3 on the built-in multiple-answer question
with prior selection `[1, 3]`, checked at member 1. -/
theorem handleSelect_multi_involution_witness :
    1 ∈ handleSelect (quizData.get ⟨1, by decide⟩)
          (handleSelect (quizData.get ⟨1, by decide⟩) [1, 3] 3) 3
      ↔ 1 ∈ ([1, 3] : List Nat) :=
  handleSelect_multi_involution (quizData.get ⟨1, by decide⟩) [1, 3] 3
    rfl (by decide) 1
